import Mathlib

/-!
Verification development for the crypto-price-tracker repository.

The definitions below are a shallow embedding of the subscription /
multiplexing core found in the source tree: the `parsePrice` helper from
the tradingview utilities, symbol normalization (`trim` + `toUpperCase`),
the `TickerSubscriptionManager` (reference counts, page registry,
`starting` coalescing map, `onPrice` listener registration with cached
replay via `setImmediate`, `EventEmitter` semantics), and the push-to-pull
queue adapters inside `streamPrices` and `watchPrices`.

JavaScript numbers are modelled as rationals where only finite values can
occur, and as an explicit `JSNum` type (finite / NaN / infinities) where
the distinction matters.  Machine maps keyed by strings are modelled as
association lists or as functions `String → Int` with `0` standing for an
absent entry, matching the `get(...) ?? 0` reads in the source.
-/

namespace CryptoTracker

/-! JavaScript number results (for `parseFloat`) -/

/-- Result of a JavaScript numeric computation: a finite value (modelled
as a rational), `NaN`, or one of the infinities. -/
inductive JSNum where
  | finite (q : ℚ)
  | nan
  | posInf
  | negInf
deriving DecidableEq, Repr

/-- Model of `Number.isFinite`. -/
def jsIsFinite : JSNum → Bool
  | .finite _ => true
  | _ => false

/-! Embedding of `parsePrice` (src utils/tradingview)

Source:
```
export function parsePrice(input: string | null | undefined): number | null {
  if (!input) return null;
  const cleaned = input.replace(/[^\d.,\-]/g, '').replace(/,/g, '');
  const n = parseFloat(cleaned);
  return Number.isFinite(n) ? n : null;
}
```
Strings are modelled as `List Char`; `null`/`undefined` as `Option.none`;
the empty string is falsy in JavaScript, so `!input` also catches it. -/

/-- Characters kept by the first `replace` (the regex `[^\d.,\-]` removes
everything that is not a digit, a dot, a comma or a minus sign). -/
def keepPriceChar (c : Char) : Bool :=
  c.isDigit || c == '.' || c == ',' || c == '-'

/-- Numeric value of a digit run (most significant first). -/
def digitsVal (ds : List Char) : ℕ :=
  ds.foldl (fun a c => 10 * a + (c.toNat - 48)) 0

/-- Threshold beyond which a decimal literal overflows an IEEE double and
`parseFloat` returns an infinity. -/
def jsOverflow : ℚ := mkRat (Int.ofNat (2 ^ 1024)) 1

/-- Model of `parseFloat` restricted to its use site: the argument has
already been cleaned to digits, dots and minus signs (letters are gone, so
the `Infinity` literal and exponents cannot occur).  `parseFloat` takes an
optional sign, then a digit run, an optional dot and a second digit run,
ignoring any trailing garbage; it is `NaN` when no digit was consumed, and
overflows to an infinity for huge literals. -/
def jsParseFloat (s : List Char) : JSNum :=
  let signNeg : Bool := match s with
    | '-' :: _ => true
    | _ => false
  let rest : List Char := match s with
    | '-' :: r => r
    | '+' :: r => r
    | r => r
  let intDs := rest.takeWhile Char.isDigit
  let rest2 := rest.dropWhile Char.isDigit
  let fracDs : List Char := match rest2 with
    | '.' :: r2 => r2.takeWhile Char.isDigit
    | _ => []
  if intDs.isEmpty && fracDs.isEmpty then JSNum.nan
  else
    let k := fracDs.length
    let magNum : ℕ := digitsVal intDs * 10 ^ k + digitsVal fracDs
    let v : ℚ :=
      if signNeg then mkRat (-(Int.ofNat magNum)) (10 ^ k)
      else mkRat (Int.ofNat magNum) (10 ^ k)
    if v ≥ jsOverflow then JSNum.posInf
    else if v ≤ -jsOverflow then JSNum.negInf
    else JSNum.finite v

/-- Shallow embedding of `parsePrice`.  The returned `JSNum` is the
JavaScript value `n` the function returns; `none` models `null`. -/
def parsePrice (input : Option (List Char)) : Option JSNum :=
  match input with
  | none => none
  | some s =>
    if s.isEmpty then none
    else
      let cleaned := (s.filter keepPriceChar).filter (fun c => c != ',')
      let n := jsParseFloat cleaned
      if jsIsFinite n then some n else none

/-! Symbol normalization (`tickerRaw.trim().toUpperCase()`) -/

/-- Model of the JavaScript whitespace test used by `String.prototype.trim`
(restricted to the common ASCII whitespace characters). -/
def jsIsSpace (c : Char) : Bool :=
  c == ' ' || c == '\t' || c == '\n' || c == '\r'

/-- Model of `String.prototype.toUpperCase` on one character (ASCII). -/
def jsToUpperChar (c : Char) : Char :=
  if 97 ≤ c.toNat ∧ c.toNat ≤ 122 then Char.ofNat (c.toNat - 32) else c

/-- Model of `String.prototype.trim`: strip leading and trailing
whitespace. -/
def jsTrim (l : List Char) : List Char :=
  List.rdropWhile jsIsSpace (l.dropWhile jsIsSpace)

/-- Model of `raw.trim().toUpperCase()` on character lists. -/
def normChars (l : List Char) : List Char :=
  (jsTrim l).map jsToUpperChar

/-- Model of `raw.trim().toUpperCase()` on strings. -/
def normStr (s : String) : String :=
  String.mk (normChars s.data)

/-! TickerSubscriptionManager: reference counts and page lifecycle

The machine below tracks one symbol of the manager state:
`refCount` is `refCounts.get(t) ?? 0` (an absent entry reads as 0),
`page` is `pages.has(t)`, `opening` is `starting.has(t)`, and
`openCalls` counts how many page opens were issued. -/

/-- One-symbol view of the `TickerSubscriptionManager` registry state. -/
structure MState where
  refCount : Int
  page : Bool
  opening : Bool
  openCalls : Nat
deriving DecidableEq, Repr

/-- The initial registry state: no entry for the symbol. -/
def initM : MState := ⟨0, false, false, 0⟩

/-- Synchronous part of `subscribe` (everything before the caller could
suspend): read `refCounts.get ?? 0`, store `current + 1`, and when
`current === 0` enter `ensurePage`, whose synchronous prefix either
returns at once (page already present), joins the in-flight `starting`
promise, or registers a new open.  The returned flag says whether the
caller is left awaiting the open operation. -/
def subscribeSync (s : MState) : MState × Bool :=
  let current := s.refCount
  let s1 : MState := { s with refCount := current + 1 }
  if current = 0 then
    if s1.page then (s1, false)
    else if s1.opening then (s1, true)
    else ({ s1 with opening := true, openCalls := s1.openCalls + 1 }, true)
  else (s1, false)

/-- Completion of the in-flight open.  On success the page is stored; on
failure the rollback runs
`refCounts.set(t, Math.max(0, (refCounts.get(t) ?? 1) - 1))`, any partial
page is discarded, and the `starting` entry is removed either way. -/
def openSettle (ok : Bool) (s : MState) : MState :=
  if s.opening then
    if ok then { s with page := true, opening := false }
    else { s with refCount := max 0 (s.refCount - 1), page := false, opening := false }
  else s

/-- Model of `unsubscribe`, run to completion: when `current <= 1` the count entry
is deleted (reads as 0) and `stopPage` closes and removes the page;
otherwise the count is decremented. -/
def unsubscribeRun (s : MState) : MState :=
  if s.refCount ≤ 1 then { s with refCount := 0, page := false }
  else { s with refCount := s.refCount - 1 }

/-- An acquire or release action on one symbol. -/
inductive RefOp where
  | acq
  | rel
deriving DecidableEq, Repr

/-- Run one action to completion: an acquire is the synchronous part of
`subscribe` followed by the successful completion of any open it issued; a
release is `unsubscribe`. -/
def refOpRun (s : MState) : RefOp → MState
  | .acq => openSettle true (subscribeSync s).1
  | .rel => unsubscribeRun s

/-- Run a sequence of acquire/release actions to completion, in order. -/
def runOps (ops : List RefOp) (s : MState) : MState :=
  ops.foldl refOpRun s

/-- The reference-count effect of one completed action, as the source
computes it: acquire stores `current + 1`; release deletes the entry when
`current <= 1` and stores `current - 1` otherwise. -/
def refStep (c : Int) : RefOp → Int
  | .acq => c + 1
  | .rel => if c ≤ 1 then 0 else c - 1

/-- Number of acquires in a sequence. -/
def acqCount : List RefOp → Int
  | [] => 0
  | .acq :: t => acqCount t + 1
  | .rel :: t => acqCount t

/-- Number of releases in a sequence. -/
def relCount : List RefOp → Int
  | [] => 0
  | .rel :: t => relCount t + 1
  | .acq :: t => relCount t

/-! Keyed reference counts (normalization at the subscribe boundary)

`subscribe` and `unsubscribe` both begin with
`const ticker = tickerRaw.trim().toUpperCase()` and then use `ticker` as
the only key.  The registry is modelled as a total function
`String → Int` with `0` for an absent entry. -/

/-- The reference-count effect of `subscribe(tickerRaw)` on the keyed
registry. -/
def subscribeKeyed (tickerRaw : String) (counts : String → Int) : String → Int :=
  let ticker := normStr tickerRaw
  fun k => if k = ticker then counts ticker + 1 else counts k

/-- The reference-count effect of `unsubscribe(tickerRaw)` on the keyed
registry. -/
def unsubscribeKeyed (tickerRaw : String) (counts : String → Int) : String → Int :=
  let ticker := normStr tickerRaw
  fun k =>
    if k = ticker then (if counts ticker ≤ 1 then 0 else counts ticker - 1)
    else counts k

/-! Listener registration, cached replay and the event emitter

`onPrice` registers `(topicKey ticker, handler)` on the `EventEmitter`,
and when `lastPrices.get(ticker)` is present schedules
`setImmediate(() => handler(lastPrice))`, capturing the cached value at
attach time.  `pushPriceUpdate` caches the update and then emits it
synchronously to every listener of that topic, in registration order.
Deliveries are logged in arrival order; the boolean marks a replay
delivery (from `setImmediate`) as opposed to a live emit. -/

/-- A price update as built in `ensurePage`: symbol, price, timestamp
(the provenance tag is constant and omitted). -/
structure PriceUpd where
  ticker : String
  price : ℚ
  ts : Int
deriving DecidableEq, Repr

/-- The emitter topic for a symbol, exactly as `topicKey` builds it: the
raw ticker is interpolated without normalization. -/
def topicKey (ticker : String) : String :=
  "price-update:" ++ ticker

/-- Read an association list (model of `Map.get`). -/
def getAssoc (k : String) : List (String × PriceUpd) → Option PriceUpd
  | [] => none
  | (k2, v) :: t => if k2 = k then some v else getAssoc k t

/-- Write an association list (model of `Map.set`: replace in place or
append). -/
def setAssoc (k : String) (v : PriceUpd) : List (String × PriceUpd) → List (String × PriceUpd)
  | [] => [(k, v)]
  | (k2, v2) :: t => if k2 = k then (k, v) :: t else (k2, v2) :: setAssoc k v t

/-- Manager state relevant to listeners: the emitter registrations
`(topic, handler)` in attach order, the `lastPrices` cache, the queue of
scheduled `setImmediate` replay callbacks (handler and captured value),
and a log of deliveries `(handler, value, isReplay)` in the order the
handlers observed them. -/
structure MgrState where
  listeners : List (String × Nat)
  lastPrices : List (String × PriceUpd)
  immediates : List (Nat × PriceUpd)
  delivered : List (Nat × PriceUpd × Bool)
deriving DecidableEq, Repr

/-- The empty manager state. -/
def initMgr : MgrState := ⟨[], [], [], []⟩

/-- Shallow embedding of `onPrice(ticker, handler)`: register the handler
under `topicKey ticker` and, when `lastPrices.get(ticker)` exists,
schedule an asynchronous replay of that captured value. -/
def onPrice (ticker : String) (h : Nat) (s : MgrState) : MgrState :=
  let key := topicKey ticker
  let s1 : MgrState := { s with listeners := s.listeners ++ [(key, h)] }
  match getAssoc ticker s.lastPrices with
  | some u => { s1 with immediates := s1.immediates ++ [(h, u)] }
  | none => s1

/-- Shallow embedding of the `pushPriceUpdate` binding for an open page of
symbol `t`: build the update, cache it in `lastPrices`, and emit it
synchronously to every listener registered under `topicKey t`, in
registration order (live deliveries, flag `false`). -/
def pushPriceUpdate (t : String) (price : ℚ) (ts : Int) (s : MgrState) : MgrState :=
  let u : PriceUpd := ⟨t, price, ts⟩
  let live := s.listeners.filterMap
    (fun e => if e.1 = topicKey t then some (e.2, u, false) else none)
  { s with lastPrices := setAssoc t u s.lastPrices,
           delivered := s.delivered ++ live }

/-- Run the oldest scheduled `setImmediate` replay callback, delivering
the captured value to its handler (replay delivery, flag `true`). -/
def runImmediate (s : MgrState) : MgrState :=
  match s.immediates with
  | [] => s
  | (h, u) :: rest =>
    { s with immediates := rest, delivered := s.delivered ++ [(h, u, true)] }

/-- Asynchronous events that can be scheduled after an attach: a price
arriving from the page for some symbol, or the event loop running the
oldest pending `setImmediate` callback. -/
inductive MEv where
  | pub (t : String) (price : ℚ) (ts : Int)
  | runImm
deriving DecidableEq, Repr

/-- Apply one scheduled event to the manager state. -/
def mStep (s : MgrState) : MEv → MgrState
  | .pub t p ts => pushPriceUpdate t p ts s
  | .runImm => runImmediate s

/-- Run a schedule of events, in order. -/
def mRun (s : MgrState) (evs : List MEv) : MgrState :=
  evs.foldl mStep s

/-- Whether an event is the event loop running a `setImmediate` callback. -/
def isRunImm : MEv → Bool
  | .runImm => true
  | _ => false

/-- The replay deliveries a handler observed, in order. -/
def replayDeliveries (h : Nat) (log : List (Nat × PriceUpd × Bool)) :
    List (Nat × PriceUpd × Bool) :=
  log.filter (fun e => e.1 == h && e.2.2)

/-- Index of the first replay delivery to handler `h` in a log. -/
def replayIdx (h : Nat) (log : List (Nat × PriceUpd × Bool)) : Nat :=
  log.findIdx (fun e => e.1 == h && e.2.2)

/-- Index of the first live delivery to handler `h` in a log. -/
def liveIdx (h : Nat) (log : List (Nat × PriceUpd × Bool)) : Nat :=
  log.findIdx (fun e => e.1 == h && !e.2.2)

/-! Detach (`EventEmitter.off`)

The detach capability returned by `onPrice` is
`() => this.emitter.off(key, handler)`.  Node removes at most one
matching registration per call, scanning the listener array from the end,
so the last matching occurrence is removed. -/

/-- Whether a registration matches the captured `(key, handler)` pair. -/
def offMatch (key : String) (h : Nat) (e : String × Nat) : Bool :=
  e.1 == key && e.2 == h

/-- Model of `emitter.off(key, handler)`: remove the last matching
registration, if any. -/
def emitterOff (key : String) (h : Nat) (l : List (String × Nat)) : List (String × Nat) :=
  (l.reverse.eraseP (offMatch key h)).reverse

/-! The `streamPrices` push-to-pull bridge

State of the per-connection queue: the `pending` array and whether a
`resolveNext` consumer is parked.  `onUpdate` drops updates for symbols
the session has not subscribed, wraps the rest, and either hands the
message to the parked consumer or appends it to `pending`; `tryDequeue`
pops the oldest pending message or parks the consumer. -/

/-- The `streamPrices` bridge state over message type `M`. -/
structure SBridge (M : Type) where
  pending : List M
  waiting : Bool
deriving DecidableEq, Repr

/-- A fresh `streamPrices` bridge. -/
def initS (M : Type) : SBridge M := ⟨[], false⟩

/-- Push side shared by both bridges: hand the item to a parked consumer
(returned as `some`) or append it to `pending`. -/
def sPush {M : Type} (m : M) (b : SBridge M) : SBridge M × Option M :=
  if b.waiting then ({ b with waiting := false }, some m)
  else ({ b with pending := b.pending ++ [m] }, none)

/-- Pull side (`tryDequeue`): pop the oldest pending message, or park the
consumer (modelled by the `none` result with `waiting` set). -/
def sPull {M : Type} (b : SBridge M) : Option M × SBridge M :=
  match b.pending with
  | m :: rest => (some m, { b with pending := rest })
  | [] => (none, { b with waiting := true })

/-- The `streamPrices` `onUpdate` callback: updates for symbols outside
the session subscription set are dropped before reaching the bridge.  The
`ServerStreamResponse` wrapper is injective in the update, so the message
is modelled by the update itself. -/
def spOnUpdate (subscribed : List String) (u : PriceUpd) (b : SBridge PriceUpd) :
    SBridge PriceUpd × Option PriceUpd :=
  if u.ticker ∈ subscribed then sPush u b else (b, none)

/-! The `watchPrices` bridge and session

`watchPrices` adds a `streamClosed` flag consulted by `tryDequeue` before
parking, and its teardown (the `finally` block) sets the flag and clears
the poll timer — it never invokes the parked `resolveNext`. -/

/-- Result of one `watchPrices` `tryDequeue` call. -/
inductive PullRes (M : Type) where
  | item (m : M)
  | sentinel
  | suspended
deriving DecidableEq, Repr

/-- The `watchPrices` bridge state. -/
structure WBridge (M : Type) where
  pending : List M
  waiting : Bool
  streamClosed : Bool
deriving DecidableEq, Repr

/-- A fresh `watchPrices` bridge. -/
def initW (M : Type) : WBridge M := ⟨[], false, false⟩

/-- The `watchPrices` `tryDequeue`: pop the oldest pending message; when
the queue is empty return the close sentinel if `streamClosed` is set,
and otherwise park the consumer. -/
def wTryDequeue {M : Type} (b : WBridge M) : PullRes M × WBridge M :=
  match b.pending with
  | m :: rest => (.item m, { b with pending := rest })
  | [] =>
    if b.streamClosed then (.sentinel, b)
    else (.suspended, { b with waiting := true })

/-- Push side of the `watchPrices` bridge (its `onUpdate` applies no
session filter): hand the message to a parked consumer or append it. -/
def wPush {M : Type} (m : M) (b : WBridge M) : WBridge M × Option M :=
  if b.waiting then ({ b with waiting := false }, some m)
  else ({ b with pending := b.pending ++ [m] }, none)

/-- Everything the `watchPrices` teardown does to the bridge: set
`streamClosed`.  No parked consumer is resolved. -/
def wClose {M : Type} (b : WBridge M) : WBridge M :=
  { b with streamClosed := true }

/-- The poll interval of the `watchPrices` discovery loop, in
milliseconds (the literal passed to `setInterval`). -/
def watchPollIntervalMs : Nat := 100

/-- The `watchPrices` session state: the symbols this output stream has
attached listeners for. -/
structure WatchState where
  subscribed : List String
deriving DecidableEq, Repr

/-- A fresh `watchPrices` session (before the initial attach loop). -/
def initWatch : WatchState := ⟨[]⟩

/-- Model of `subscribeToTicker`: attach a listener for a newly seen symbol. -/
def subscribeToTicker (t : String) (w : WatchState) : WatchState :=
  if t ∈ w.subscribed then w else { w with subscribed := w.subscribed ++ [t] }

/-- One tick of the `checkInterval` poll: attach listeners for all
currently active symbols not yet attached, then detach symbols that are
no longer active.  The initial attach loop is the first half run from the
empty session. -/
def pollStep (active : List String) (w : WatchState) : WatchState :=
  let w1 := active.foldl (fun w t => subscribeToTicker t w) w
  { w1 with subscribed := w1.subscribed.filter (fun t => t ∈ active) }

/-- Delivery of a published update to a `watchPrices` session: the
emitter hands the update to the session exactly when the session has a
listener attached for its symbol, and the session `onUpdate` then pushes
it to the bridge unconditionally (there is no per-client filter). -/
def watchDeliver (u : PriceUpd) (w : WatchState) (b : WBridge PriceUpd) : WBridge PriceUpd :=
  if u.ticker ∈ w.subscribed then (wPush u b).1 else b

end CryptoTracker

namespace CryptoTracker

/-! Helper lemmas: reference-count arithmetic -/

/-- The synchronous part of `subscribe` always stores `current + 1`. -/
theorem subscribeSync_refCount (s : MState) :
    (subscribeSync s).1.refCount = s.refCount + 1 := by
  simp only [subscribeSync]
  repeat' split
  all_goals rfl

/-- A successful open completion does not touch the reference count. -/
theorem openSettle_true_refCount (s : MState) :
    (openSettle true s).refCount = s.refCount := by
  simp only [openSettle]
  repeat' split
  all_goals first | rfl | simp_all

/-- One completed acquire/release changes the stored reference count
exactly as `refStep` computes it. -/
theorem refOpRun_refCount (s : MState) (op : RefOp) :
    (refOpRun s op).refCount = refStep s.refCount op := by
  cases op with
  | acq =>
    show (openSettle true (subscribeSync s).1).refCount = s.refCount + 1
    rw [openSettle_true_refCount, subscribeSync_refCount]
  | rel =>
    show (unsubscribeRun s).refCount = if s.refCount ≤ 1 then 0 else s.refCount - 1
    simp only [unsubscribeRun]
    split <;> rfl

/-- The reference count after a completed sequence is the `refStep` fold. -/
theorem runOps_refCount (ops : List RefOp) (s : MState) :
    (runOps ops s).refCount = List.foldl refStep s.refCount ops := by
  induction ops generalizing s with
  | nil => rfl
  | cons op tl ih =>
    simp only [runOps, List.foldl_cons] at *
    rw [ih (refOpRun s op), refOpRun_refCount]

/-- The `refStep` fold never drives the count negative. -/
theorem foldl_refStep_nonneg (ops : List RefOp) :
    ∀ c : Int, 0 ≤ c → 0 ≤ List.foldl refStep c ops := by
  induction ops with
  | nil => intro c hc; simpa using hc
  | cons op tl ih =>
    intro c hc
    rw [List.foldl_cons]
    apply ih
    cases op with
    | acq => simp only [refStep]; omega
    | rel => simp only [refStep]; split <;> omega

/-- When no prefix has more releases than the starting count plus its
acquires, the clamp in `refStep` never fires and the fold is exact
counting. -/
theorem foldl_refStep_balanced (ops : List RefOp) :
    ∀ c : Int,
      (∀ n, n ≤ ops.length → relCount (ops.take n) ≤ c + acqCount (ops.take n)) →
      List.foldl refStep c ops = c + acqCount ops - relCount ops := by
  induction ops with
  | nil => intro c _; simp [acqCount, relCount]
  | cons op tl ih =>
    intro c h
    cases op with
    | acq =>
      rw [List.foldl_cons]
      have step : refStep c RefOp.acq = c + 1 := rfl
      rw [step, ih (c + 1) ?_]
      · simp only [acqCount, relCount]; ring
      · intro n hn
        have h2 := h (n + 1) (by simp only [List.length_cons]; omega)
        simp only [List.take_succ_cons, acqCount, relCount] at h2
        omega
    | rel =>
      have hc : 1 ≤ c := by
        have h1 := h 1 (by simp only [List.length_cons]; omega)
        simp only [List.take_succ_cons, List.take_zero, acqCount, relCount] at h1
        omega
      rw [List.foldl_cons]
      have step : refStep c RefOp.rel = c - 1 := by
        simp only [refStep]; split <;> omega
      rw [step, ih (c - 1) ?_]
      · simp only [acqCount, relCount]; ring
      · intro n hn
        have h2 := h (n + 1) (by simp only [List.length_cons]; omega)
        simp only [List.take_succ_cons, acqCount, relCount] at h2
        omega


/-! Claims C1, C2, C3 -/

/-- C1: the spec invariant says a live-source entry is `Open` iff its
reference count is positive, never closed while the count is positive —
explicitly including the aftermath of a failed open that overlapped a
second concurrent acquire.  The code violates this: two concurrent
`subscribe` calls on a fresh symbol, followed by failure of the single
in-flight open, settle at `refCount = 1` with no page and no in-flight
open; worse, a third `subscribe` sees `current > 0`, skips `ensurePage`,
and the symbol stays wedged at `refCount = 2` with no page and no open
ever issued again. -/
theorem c1_failed_open_dangling_ref :
    openSettle false (subscribeSync (subscribeSync initM).1).1 =
      ⟨1, false, false, 1⟩ ∧
    (subscribeSync (openSettle false (subscribeSync (subscribeSync initM).1).1)).1 =
      ⟨2, false, false, 1⟩ := by
  decide

/-- C2 counterexample: the claim says the settled reference count always
equals acquires minus releases clamped at zero.  For the sequence
release-then-acquire the code ends at `refCount = 1`, while the claimed
formula gives `max 0 (1 - 1) = 0`. -/
theorem c2_counterexample :
    (runOps [RefOp.rel, RefOp.acq] initM).refCount = 1 ∧
    max 0 (acqCount [RefOp.rel, RefOp.acq] - relCount [RefOp.rel, RefOp.acq]) = 0 ∧
    (runOps [RefOp.rel, RefOp.acq] initM).refCount ≠
      max 0 (acqCount [RefOp.rel, RefOp.acq] - relCount [RefOp.rel, RefOp.acq]) := by
  decide

/-- C2 amended: the reference count is never negative at any point of any
completed acquire/release sequence, and whenever no prefix of the
sequence has more releases than acquires the settled count equals
acquires minus releases exactly (so the clamp is only reachable through
prefixes where releases outnumber acquires, and on such sequences the
settled count can exceed the clamped difference because a release on a
zero count is a no-op). -/
theorem c2_refcount_amended (ops : List RefOp) :
    (∀ n, 0 ≤ (runOps (ops.take n) initM).refCount) ∧
    ((∀ n, n ≤ ops.length → relCount (ops.take n) ≤ acqCount (ops.take n)) →
      (runOps ops initM).refCount = acqCount ops - relCount ops) := by
  constructor
  · intro n
    rw [runOps_refCount]
    exact foldl_refStep_nonneg _ 0 le_rfl
  · intro h
    rw [runOps_refCount]
    have := foldl_refStep_balanced ops 0 (by intro n hn; simpa using h n hn)
    simpa using this

/-- C2 witness: the amended statement applied to the concrete sequence
acquire, acquire, release, whose prefixes are all balanced. -/
theorem c2_refcount_amended_witness :
    (runOps [RefOp.acq, RefOp.acq, RefOp.rel] initM).refCount =
      acqCount [RefOp.acq, RefOp.acq, RefOp.rel] -
        relCount [RefOp.acq, RefOp.acq, RefOp.rel] :=
  (c2_refcount_amended [RefOp.acq, RefOp.acq, RefOp.rel]).2 (by decide)

/-- C3 counterexample: the claim says each of two concurrent acquires on
a fresh symbol awaits the single in-flight open and neither returns
before it completes.  In the code the second `subscribe` sees
`current === 1`, never calls `ensurePage`, and returns while the open is
still in flight. -/
theorem c3_counterexample :
    (subscribeSync (subscribeSync initM).1).2 = false ∧
    (subscribeSync (subscribeSync initM).1).1.opening = true := by
  decide

/-- C3 amended: two concurrent acquires on a fresh symbol issue exactly
one collaborator open; the caller that triggered it awaits the in-flight
operation, while the second caller only increments the reference count
and returns immediately without starting a second open. -/
theorem c3_single_open_amended :
    (subscribeSync (subscribeSync initM).1).1.openCalls = 1 ∧
    (subscribeSync initM).2 = true ∧
    (subscribeSync (subscribeSync initM).1).2 = false ∧
    (subscribeSync (subscribeSync initM).1).1.refCount = 2 := by
  decide


/-! Claims C5, C6 (bridges) and C9 (watch discovery) -/

/-- C5 counterexample: the claim says a consumer whose pull is already in
flight when the bridge closes is woken with the close sentinel.  In the
code a pull on an empty queue parks the consumer, and the teardown only
sets `streamClosed` — the parked consumer is never resolved: after the
close it is still waiting and nothing was handed to it. -/
theorem c5_counterexample :
    (wTryDequeue (initW Nat)).1 = PullRes.suspended ∧
    (wClose (wTryDequeue (initW Nat)).2).waiting = true ∧
    (wClose (wTryDequeue (initW Nat)).2).pending = [] := by
  decide

/-- C5 amended: once the bridge is marked closed, any pull that finds the
queue empty returns the close sentinel immediately without suspending and
leaves the state unchanged; but closing itself does not wake a consumer
that is already parked (the waiting slot is untouched). -/
theorem c5_closed_pull_amended {M : Type} (b : WBridge M) (hp : b.pending = []) :
    wTryDequeue (wClose b) = (PullRes.sentinel, wClose b) ∧
    (wClose b).waiting = b.waiting := by
  refine ⟨?_, rfl⟩
  simp [wClose, wTryDequeue, hp]

/-- C5 witness: the amended statement at a concrete parked-free bridge. -/
theorem c5_closed_pull_amended_witness :
    wTryDequeue (wClose (initW Nat)) = (PullRes.sentinel, wClose (initW Nat)) ∧
    (wClose (initW Nat)).waiting = (initW Nat).waiting :=
  c5_closed_pull_amended (initW Nat) rfl

/-- C6: three updates for subscribed symbols pushed into a fresh
`streamPrices` bridge before any pull are stored in arrival order, and
three successive pulls return them first-in-first-out with no loss,
leaving the queue empty. -/
theorem c6_fifo (subs : List String) (u1 u2 u3 : PriceUpd)
    (h1 : u1.ticker ∈ subs) (h2 : u2.ticker ∈ subs) (h3 : u3.ticker ∈ subs) :
    (spOnUpdate subs u3 (spOnUpdate subs u2 (spOnUpdate subs u1
        (initS PriceUpd)).1).1).1.pending = [u1, u2, u3] ∧
    (sPull (spOnUpdate subs u3 (spOnUpdate subs u2 (spOnUpdate subs u1
        (initS PriceUpd)).1).1).1).1 = some u1 ∧
    (sPull (sPull (spOnUpdate subs u3 (spOnUpdate subs u2 (spOnUpdate subs u1
        (initS PriceUpd)).1).1).1).2).1 = some u2 ∧
    (sPull (sPull (sPull (spOnUpdate subs u3 (spOnUpdate subs u2 (spOnUpdate subs u1
        (initS PriceUpd)).1).1).1).2).2).1 = some u3 ∧
    (sPull (sPull (sPull (spOnUpdate subs u3 (spOnUpdate subs u2 (spOnUpdate subs u1
        (initS PriceUpd)).1).1).1).2).2).2.pending = [] := by
  simp [spOnUpdate, sPush, sPull, initS, h1, h2, h3]

/-- C6 witness: the FIFO statement at three concrete updates for one
subscribed symbol. -/
theorem c6_fifo_witness :
    (spOnUpdate ["BTCUSD"] ⟨"BTCUSD", 3, 3⟩ (spOnUpdate ["BTCUSD"] ⟨"BTCUSD", 2, 2⟩
        (spOnUpdate ["BTCUSD"] ⟨"BTCUSD", 1, 1⟩
        (initS PriceUpd)).1).1).1.pending =
      [⟨"BTCUSD", 1, 1⟩, ⟨"BTCUSD", 2, 2⟩, ⟨"BTCUSD", 3, 3⟩] ∧
    (sPull (spOnUpdate ["BTCUSD"] ⟨"BTCUSD", 3, 3⟩ (spOnUpdate ["BTCUSD"] ⟨"BTCUSD", 2, 2⟩
        (spOnUpdate ["BTCUSD"] ⟨"BTCUSD", 1, 1⟩
        (initS PriceUpd)).1).1).1).1 = some ⟨"BTCUSD", 1, 1⟩ ∧
    (sPull (sPull (spOnUpdate ["BTCUSD"] ⟨"BTCUSD", 3, 3⟩ (spOnUpdate ["BTCUSD"] ⟨"BTCUSD", 2, 2⟩
        (spOnUpdate ["BTCUSD"] ⟨"BTCUSD", 1, 1⟩
        (initS PriceUpd)).1).1).1).2).1 = some ⟨"BTCUSD", 2, 2⟩ ∧
    (sPull (sPull (sPull (spOnUpdate ["BTCUSD"] ⟨"BTCUSD", 3, 3⟩ (spOnUpdate ["BTCUSD"] ⟨"BTCUSD", 2, 2⟩
        (spOnUpdate ["BTCUSD"] ⟨"BTCUSD", 1, 1⟩
        (initS PriceUpd)).1).1).1).2).2).1 = some ⟨"BTCUSD", 3, 3⟩ ∧
    (sPull (sPull (sPull (spOnUpdate ["BTCUSD"] ⟨"BTCUSD", 3, 3⟩ (spOnUpdate ["BTCUSD"] ⟨"BTCUSD", 2, 2⟩
        (spOnUpdate ["BTCUSD"] ⟨"BTCUSD", 1, 1⟩
        (initS PriceUpd)).1).1).1).2).2).2.pending = [] :=
  c6_fifo ["BTCUSD"] ⟨"BTCUSD", 1, 1⟩ ⟨"BTCUSD", 2, 2⟩ ⟨"BTCUSD", 3, 3⟩
    (by decide) (by decide) (by decide)

/-- Membership after the attach loop of `watchPrices`: a symbol is
attached afterwards iff it was attached before or is in the polled list. -/
theorem mem_foldl_subscribeToTicker (l : List String) :
    ∀ (w : WatchState) (x : String),
      x ∈ (l.foldl (fun w t => subscribeToTicker t w) w).subscribed ↔
        x ∈ w.subscribed ∨ x ∈ l := by
  induction l with
  | nil => intro w x; simp
  | cons t tl ih =>
    intro w x
    rw [List.foldl_cons, ih]
    have hst : x ∈ (subscribeToTicker t w).subscribed ↔ x ∈ w.subscribed ∨ x = t := by
      simp only [subscribeToTicker]
      split
      · rename_i hmem
        constructor
        · exact fun hx => Or.inl hx
        · rintro (hx | rfl)
          · exact hx
          · exact hmem
      · simp [List.mem_append]
    rw [hst]
    simp only [List.mem_cons]
    tauto

/-- C9: every `watchPrices` output stream polls the global active set on
a 100 ms interval and attaches a listener for every active symbol —
symbols made active by other sessions included — and its update callback
applies no per-client filter, so an update for any symbol the stream is
attached to is pushed into this stream even though the watching client
never subscribed to it. -/
theorem c9_watch_attaches_active (active : List String) (w : WatchState)
    (u : PriceUpd) (b : WBridge PriceUpd) (hu : u.ticker ∈ active) :
    watchPollIntervalMs = 100 ∧
    (∀ t, t ∈ (pollStep active w).subscribed ↔ t ∈ active) ∧
    watchDeliver u (pollStep active w) b = (wPush u b).1 := by
  have hmem : ∀ t, t ∈ (pollStep active w).subscribed ↔ t ∈ active := by
    intro t
    simp only [pollStep, List.mem_filter, mem_foldl_subscribeToTicker,
      decide_eq_true_eq]
    constructor
    · exact fun h => h.2
    · exact fun h => ⟨Or.inr h, h⟩
  refine ⟨rfl, hmem, ?_⟩
  simp only [watchDeliver, (hmem u.ticker).2 hu, if_pos]

/-- C9 witness: a symbol kept active by another session is attached and
its updates are delivered to a fresh watch stream. -/
theorem c9_watch_attaches_active_witness :
    watchPollIntervalMs = 100 ∧
    (∀ t, t ∈ (pollStep ["ETHUSD"] initWatch).subscribed ↔ t ∈ ["ETHUSD"]) ∧
    watchDeliver ⟨"ETHUSD", 3000, 5⟩ (pollStep ["ETHUSD"] initWatch) (initW PriceUpd) =
      (wPush ⟨"ETHUSD", 3000, 5⟩ (initW PriceUpd)).1 :=
  c9_watch_attaches_active ["ETHUSD"] initWatch ⟨"ETHUSD", 3000, 5⟩ (initW PriceUpd)
    (by decide)


/-! Helper lemmas: replay-on-attach bookkeeping -/

/-- Filtering a log concatenation for replay deliveries distributes. -/
theorem replayDeliveries_append (h : Nat) (l1 l2 : List (Nat × PriceUpd × Bool)) :
    replayDeliveries h (l1 ++ l2) = replayDeliveries h l1 ++ replayDeliveries h l2 :=
  List.filter_append _ _

/-- The deliveries produced by one synchronous emit are all live (flag
`false`), so they contribute no replay deliveries. -/
theorem replayDeliveries_live (h : Nat) (L : List (String × Nat)) (key : String)
    (u : PriceUpd) :
    replayDeliveries h
      (L.filterMap (fun e => if e.1 = key then some (e.2, u, false) else none)) = [] := by
  rw [replayDeliveries, List.filter_eq_nil_iff]
  intro e he
  rcases List.mem_filterMap.mp he with ⟨a, _, hfa⟩
  by_cases hk : a.1 = key
  · rw [if_pos hk] at hfa
    cases hfa
    simp
  · rw [if_neg hk] at hfa
    cases hfa

/-- A publish leaves the replay deliveries and the immediate queue
unchanged. -/
theorem replayDeliveries_pushPriceUpdate (hn : Nat) (t : String) (p : ℚ) (ts : Int)
    (s : MgrState) :
    replayDeliveries hn (pushPriceUpdate t p ts s).delivered =
      replayDeliveries hn s.delivered ∧
    (pushPriceUpdate t p ts s).immediates = s.immediates := by
  constructor
  · show replayDeliveries hn (s.delivered ++ _) = _
    rw [replayDeliveries_append, replayDeliveries_live]
    simp
  · rfl

/-- Running the event loop with an empty immediate queue is a no-op. -/
theorem runImmediate_empty (s : MgrState) (him : s.immediates = []) :
    runImmediate s = s := by
  unfold runImmediate
  rw [him]

/-- Running the event loop when exactly the one replay callback is queued
delivers the captured value (as a replay) and drains the queue. -/
theorem runImmediate_single (hn : Nat) (u : PriceUpd) (s : MgrState)
    (him : s.immediates = [(hn, u)]) :
    runImmediate s = { s with immediates := [], delivered := s.delivered ++ [(hn, u, true)] } := by
  unfold runImmediate
  rw [him]

/-- With no replay callback queued, no schedule of publishes and event
loop turns can ever produce a replay delivery. -/
theorem mRun_no_imm (evs : List MEv) :
    ∀ (s : MgrState) (hn : Nat), s.immediates = [] →
      replayDeliveries hn (mRun s evs).delivered = replayDeliveries hn s.delivered ∧
      (mRun s evs).immediates = [] := by
  induction evs with
  | nil => intro s hn him; exact ⟨rfl, him⟩
  | cons ev tl ih =>
    intro s hn him
    cases ev with
    | pub t p ts =>
      have hstep : mRun s (MEv.pub t p ts :: tl) = mRun (pushPriceUpdate t p ts s) tl := rfl
      have hi := ih (pushPriceUpdate t p ts s) hn
        (by rw [(replayDeliveries_pushPriceUpdate hn t p ts s).2]; exact him)
      rw [hstep, hi.1, (replayDeliveries_pushPriceUpdate hn t p ts s).1]
      exact ⟨rfl, hi.2⟩
    | runImm =>
      have hstep : mRun s (MEv.runImm :: tl) = mRun (runImmediate s) tl := rfl
      rw [hstep, runImmediate_empty s him]
      exact ih s hn him

/-- With exactly one queued replay callback for handler `hn` capturing
`u`, any schedule delivers that replay exactly once iff the event loop
runs at all, always with the captured value. -/
theorem mRun_one_imm (evs : List MEv) :
    ∀ (s : MgrState) (hn : Nat) (u : PriceUpd), s.immediates = [(hn, u)] →
      replayDeliveries hn (mRun s evs).delivered =
        replayDeliveries hn s.delivered ++
          (if evs.any isRunImm then [(hn, u, true)] else []) := by
  induction evs with
  | nil => intro s hn u him; simp [mRun]
  | cons ev tl ih =>
    intro s hn u him
    cases ev with
    | pub t p ts =>
      have hstep : mRun s (MEv.pub t p ts :: tl) = mRun (pushPriceUpdate t p ts s) tl := rfl
      have hi := ih (pushPriceUpdate t p ts s) hn u
        (by rw [(replayDeliveries_pushPriceUpdate hn t p ts s).2]; exact him)
      rw [hstep, hi, (replayDeliveries_pushPriceUpdate hn t p ts s).1]
      simp [isRunImm]
    | runImm =>
      have hone := runImmediate_single hn u s him
      have himm : (runImmediate s).immediates = [] := by rw [hone]
      have hdel : (runImmediate s).delivered = s.delivered ++ [(hn, u, true)] := by rw [hone]
      have h2 := mRun_no_imm tl (runImmediate s) hn himm
      have hstep : mRun s (MEv.runImm :: tl) = mRun (runImmediate s) tl := rfl
      rw [hstep, h2.1, hdel, replayDeliveries_append]
      simp [replayDeliveries, isRunImm]

/-! Claim C4 (replay-on-attach) -/

/-- C4 counterexample: the claim says a listener attached while a cached
value exists receives that cached value before any newer live update.  In
the code the replay is a `setImmediate` while live emits are synchronous,
so a live update published between the attach and the scheduled replay
reaches the listener first: in the schedule below the delivery log shows
the newer live value at index 0 and the cached replay at index 1. -/
theorem c4_counterexample :
    (mRun (onPrice "BTCUSD" 0 (pushPriceUpdate "BTCUSD" 1 1 initMgr))
        [MEv.pub "BTCUSD" 2 2, MEv.runImm]).delivered =
      [(0, ⟨"BTCUSD", 2, 2⟩, false), (0, ⟨"BTCUSD", 1, 1⟩, true)] ∧
    liveIdx 0 ((mRun (onPrice "BTCUSD" 0 (pushPriceUpdate "BTCUSD" 1 1 initMgr))
        [MEv.pub "BTCUSD" 2 2, MEv.runImm]).delivered) = 0 ∧
    replayIdx 0 ((mRun (onPrice "BTCUSD" 0 (pushPriceUpdate "BTCUSD" 1 1 initMgr))
        [MEv.pub "BTCUSD" 2 2, MEv.runImm]).delivered) = 1 := by
  decide

/-- C4 amended: a listener attached while a cached value exists receives
the replay exactly once (as soon as the event loop runs the scheduled
callback), and the value delivered is exactly the cached value captured
at attach time — even when later publishes overwrite the cache first.
The delivery order relative to live updates is not guaranteed: a live
update published before the scheduled callback runs arrives first. -/
theorem c4_replay_once_amended (T : String) (hn : Nat) (p0 : ℚ) (t0 : Int)
    (evs : List MEv) :
    replayDeliveries hn
        (mRun (onPrice T hn (pushPriceUpdate T p0 t0 initMgr)) evs).delivered =
      (if evs.any isRunImm then [(hn, ⟨T, p0, t0⟩, true)] else []) := by
  have hstate : (onPrice T hn (pushPriceUpdate T p0 t0 initMgr)).immediates =
      [(hn, ⟨T, p0, t0⟩)] := by
    simp [onPrice, pushPriceUpdate, initMgr, getAssoc, setAssoc]
  have hdeliv : (onPrice T hn (pushPriceUpdate T p0 t0 initMgr)).delivered = [] := by
    simp [onPrice, pushPriceUpdate, initMgr, getAssoc, setAssoc]
  rw [mRun_one_imm evs _ hn _ hstate, hdeliv]
  rfl


/-! Helper lemmas: normalization is idempotent -/

/-- Characters with equal code points are equal. -/
theorem charToNat_inj {a b : Char} (h : a.toNat = b.toNat) : a = b :=
  Char.ext (UInt32.ext_iff.mpr h)

/-- Code point of the uppercase image of a lowercase letter. -/
theorem ofNat_sub32_toNat : ∀ m < 123, 97 ≤ m → (Char.ofNat (m - 32)).toNat = m - 32 := by
  decide

/-- The whitespace test in terms of code points. -/
theorem jsIsSpace_iff_toNat (c : Char) :
    jsIsSpace c = true ↔ (c.toNat = 32 ∨ c.toNat = 9 ∨ c.toNat = 10 ∨ c.toNat = 13) := by
  unfold jsIsSpace
  simp only [Bool.or_eq_true, beq_iff_eq]
  constructor
  · rintro (((rfl | rfl) | rfl) | rfl) <;> simp
  · rintro (h | h | h | h)
    · exact Or.inl (Or.inl (Or.inl (charToNat_inj h)))
    · exact Or.inl (Or.inl (Or.inr (charToNat_inj h)))
    · exact Or.inl (Or.inr (charToNat_inj h))
    · exact Or.inr (charToNat_inj h)

/-- Uppercasing never changes whether a character is whitespace. -/
theorem jsIsSpace_toUpper (c : Char) : jsIsSpace (jsToUpperChar c) = jsIsSpace c := by
  unfold jsToUpperChar
  split
  · rename_i h
    have ht : (Char.ofNat (c.toNat - 32)).toNat = c.toNat - 32 :=
      ofNat_sub32_toNat c.toNat (by omega) h.1
    have h1 : jsIsSpace (Char.ofNat (c.toNat - 32)) = false := by
      cases hb : jsIsSpace (Char.ofNat (c.toNat - 32)) with
      | false => rfl
      | true =>
        have := (jsIsSpace_iff_toNat _).mp hb
        rw [ht] at this
        omega
    have h2 : jsIsSpace c = false := by
      cases hb : jsIsSpace c with
      | false => rfl
      | true =>
        have := (jsIsSpace_iff_toNat _).mp hb
        omega
    rw [h1, h2]
  · rfl

/-- Uppercasing is idempotent. -/
theorem jsToUpperChar_idem (c : Char) : jsToUpperChar (jsToUpperChar c) = jsToUpperChar c := by
  by_cases h : 97 ≤ c.toNat ∧ c.toNat ≤ 122
  · have ht : (Char.ofNat (c.toNat - 32)).toNat = c.toNat - 32 :=
      ofNat_sub32_toNat c.toNat (by omega) h.1
    have h1 : jsToUpperChar c = Char.ofNat (c.toNat - 32) := by
      unfold jsToUpperChar
      rw [if_pos h]
    rw [h1]
    unfold jsToUpperChar
    rw [ht, if_neg (by omega)]
  · have h1 : jsToUpperChar c = c := by
      unfold jsToUpperChar
      rw [if_neg h]
    rw [h1, h1]

/-- Dropping leading whitespace again after a trim is a no-op: the
trimmed list is a prefix of the leading-space-free list, so its head is
not whitespace. -/
theorem dropWhile_trim_self (p : Char → Bool) (l : List Char) :
    (List.rdropWhile p (l.dropWhile p)).dropWhile p = List.rdropWhile p (l.dropWhile p) := by
  cases hx : l.dropWhile p with
  | nil => simp [hx, List.rdropWhile]
  | cons a t =>
    have hpa : p a = false := by
      have h0 := List.head?_dropWhile_not p l
      rw [hx] at h0
      exact h0
    cases hy : List.rdropWhile p (a :: t) with
    | nil => simp
    | cons b u =>
      have hb : b = a := by
        have hpre := List.rdropWhile_prefix p (a :: t)
        rw [hy] at hpre
        rcases hpre with ⟨r, hr⟩
        have hcons : b :: (u ++ r) = a :: t := hr
        exact (List.cons.inj hcons).1
      subst hb
      rw [List.dropWhile_cons, hpa]
      simp

/-- Trimming is idempotent. -/
theorem jsTrim_idem (l : List Char) : jsTrim (jsTrim l) = jsTrim l := by
  unfold jsTrim
  rw [dropWhile_trim_self, List.rdropWhile_idempotent]

/-- Trimming commutes with uppercasing. -/
theorem jsTrim_map_upper (l : List Char) :
    jsTrim (l.map jsToUpperChar) = (jsTrim l).map jsToUpperChar := by
  have hcomp : (jsIsSpace ∘ jsToUpperChar) = jsIsSpace := funext jsIsSpace_toUpper
  unfold jsTrim List.rdropWhile
  rw [List.dropWhile_map, hcomp, ← List.map_reverse, List.dropWhile_map, hcomp,
    ← List.map_reverse]

/-- Uppercasing a list twice is the same as once. -/
theorem map_upper_idem (l : List Char) :
    (l.map jsToUpperChar).map jsToUpperChar = l.map jsToUpperChar := by
  rw [List.map_map]
  exact List.map_congr_left (fun a _ => jsToUpperChar_idem a)

/-- Normalization of character lists is idempotent. -/
theorem normChars_idem (l : List Char) : normChars (normChars l) = normChars l := by
  unfold normChars
  rw [jsTrim_map_upper, jsTrim_idem, map_upper_idem]

/-- Normalization of strings is idempotent. -/
theorem normStr_idem (s : String) : normStr (normStr s) = normStr s :=
  congrArg String.mk (normChars_idem s.data)

/-! Claim C7 (normalization at every boundary) -/

/-- C7 counterexample: the claim says every symbol-keyed operation treats
a raw input like its normalized form.  `subscribe`/`unsubscribe` do
normalize, but `onPrice` builds its emitter topic from the raw ticker
(`topicKey` does not normalize) and reads the `lastPrices` cache with the
raw ticker: with `"BTCUSD"` cached, attaching via the raw spelling
`" btcusd "` registers a dead topic and schedules no cached replay, while
attaching via the normalized spelling does both. -/
theorem c7_counterexample :
    normStr " btcusd " = "BTCUSD" ∧
    onPrice " btcusd " 0 ⟨[], [("BTCUSD", ⟨"BTCUSD", 50000, 1⟩)], [], []⟩ ≠
      onPrice (normStr " btcusd ") 0 ⟨[], [("BTCUSD", ⟨"BTCUSD", 50000, 1⟩)], [], []⟩ ∧
    (onPrice " btcusd " 0 ⟨[], [("BTCUSD", ⟨"BTCUSD", 50000, 1⟩)], [], []⟩).immediates
      = [] ∧
    (onPrice (normStr " btcusd ") 0
        ⟨[], [("BTCUSD", ⟨"BTCUSD", 50000, 1⟩)], [], []⟩).immediates
      = [(0, ⟨"BTCUSD", 50000, 1⟩)] ∧
    (onPrice " btcusd " 0 ⟨[], [("BTCUSD", ⟨"BTCUSD", 50000, 1⟩)], [], []⟩).listeners
      = [("price-update: btcusd ", 0)] := by
  decide

/-- C7 amended: `subscribe` and `unsubscribe` normalize their raw ticker
(trim plus uppercase) before touching the registry, so on those two
operations any raw spelling acts exactly like its normalized form;
`onPrice` and the cached-last-value lookup use the ticker verbatim. -/
theorem c7_subscribe_normalized (raw : String) (counts : String → Int) :
    subscribeKeyed raw counts = subscribeKeyed (normStr raw) counts ∧
    unsubscribeKeyed raw counts = unsubscribeKeyed (normStr raw) counts := by
  unfold subscribeKeyed unsubscribeKeyed
  rw [normStr_idem]
  exact ⟨rfl, rfl⟩


/-! Helper lemmas: removing one matching listener -/

/-- Erasing one match from a list that has a match lowers the match count
by exactly one. -/
theorem countP_eraseP_any {α : Type} (p : α → Bool) (l : List α)
    (h : l.any p = true) : (l.eraseP p).countP p + 1 = l.countP p := by
  induction l with
  | nil => simp at h
  | cons a t ih =>
    by_cases hp : p a = true
    · rw [List.eraseP_cons_of_pos hp, List.countP_cons_of_pos p t hp]
    · rw [List.eraseP_cons_of_neg hp, List.countP_cons_of_neg p _ hp,
        List.countP_cons_of_neg p _ hp]
      apply ih
      rw [List.any_cons] at h
      simpa [hp] using h

/-! Claim C8 (detach capability) -/

/-- C8 counterexample: the claim says the detach returned by an attach is
idempotent even when the same callback is attached twice for the same
symbol.  `emitter.off` removes one matching registration per call, so
with two identical registrations the first invocation leaves one and the
second invocation removes that one too — not a no-op. -/
theorem c8_counterexample :
    emitterOff "price-update:BTCUSD" 0
        [("price-update:BTCUSD", 0), ("price-update:BTCUSD", 0)] =
      [("price-update:BTCUSD", 0)] ∧
    emitterOff "price-update:BTCUSD" 0 (emitterOff "price-update:BTCUSD" 0
        [("price-update:BTCUSD", 0), ("price-update:BTCUSD", 0)]) = [] := by
  decide

/-- C8 amended: each invocation of the detach capability removes at most
one registration matching its captured key and handler; when the callback
was registered at most once (no duplicate attach), invoking the detach a
second time is a no-op. -/
theorem c8_detach_idempotent_amended (key : String) (hn : Nat)
    (l : List (String × Nat)) (hcount : l.countP (offMatch key hn) ≤ 1) :
    emitterOff key hn (emitterOff key hn l) = emitterOff key hn l := by
  by_cases hany : l.reverse.any (offMatch key hn) = true
  · have hstep := countP_eraseP_any (offMatch key hn) l.reverse hany
    rw [List.countP_reverse] at hstep
    have h0 : (l.reverse.eraseP (offMatch key hn)).countP (offMatch key hn) = 0 := by
      omega
    have hforall := List.countP_eq_zero.mp h0
    show (((l.reverse.eraseP (offMatch key hn)).reverse).reverse.eraseP
        (offMatch key hn)).reverse = _
    rw [List.reverse_reverse, List.eraseP_of_forall_not hforall]
    rfl
  · have hforall : ∀ a ∈ l.reverse, ¬ offMatch key hn a = true := by
      intro a ha hpa
      rw [List.any_eq_true] at hany
      exact hany ⟨a, ha, hpa⟩
    show (((l.reverse.eraseP (offMatch key hn)).reverse).reverse.eraseP
        (offMatch key hn)).reverse = _
    rw [List.reverse_reverse, List.eraseP_of_forall_not hforall]
    rfl

/-- C8 witness: the amended statement at a registration list holding the
captured pair once. -/
theorem c8_detach_idempotent_amended_witness :
    emitterOff "price-update:BTCUSD" 0 (emitterOff "price-update:BTCUSD" 0
        [("price-update:BTCUSD", 0), ("price-update:ETHUSD", 1)]) =
      emitterOff "price-update:BTCUSD" 0
        [("price-update:BTCUSD", 0), ("price-update:ETHUSD", 1)] :=
  c8_detach_idempotent_amended "price-update:BTCUSD" 0
    [("price-update:BTCUSD", 0), ("price-update:ETHUSD", 1)] (by decide)

/-! Claim C10 (parsePrice is total and never non-finite) -/

/-- C10: `parsePrice` is total by construction of the embedding (it is a
Lean function over all of `Option (List Char)`, covering `null`,
`undefined` and every string), and whenever it returns a number rather
than `null` that number is finite: the `Number.isFinite` guard maps
`NaN` and both infinities to `null`. -/
theorem c10_parse_price_total (input : Option (List Char)) (n : JSNum)
    (h : parsePrice input = some n) : ∃ q : ℚ, n = JSNum.finite q := by
  cases input with
  | none => exact absurd h (by simp [parsePrice])
  | some s =>
    simp only [parsePrice] at h
    by_cases he : s.isEmpty
    · rw [if_pos he] at h
      exact absurd h (by simp)
    · rw [if_neg he] at h
      by_cases hf : jsIsFinite (jsParseFloat
          ((s.filter keepPriceChar).filter (fun c => c != ','))) = true
      · rw [if_pos hf] at h
        have hn2 : n = jsParseFloat ((s.filter keepPriceChar).filter (fun c => c != ',')) :=
          (Option.some.inj h).symm
        cases hj : jsParseFloat ((s.filter keepPriceChar).filter (fun c => c != ',')) with
        | finite q => exact ⟨q, by rw [hn2, hj]⟩
        | nan => rw [hj] at hf; exact absurd hf (by simp [jsIsFinite])
        | posInf => rw [hj] at hf; exact absurd hf (by simp [jsIsFinite])
        | negInf => rw [hj] at hf; exact absurd hf (by simp [jsIsFinite])
      · rw [if_neg hf] at h
        exact absurd h (by simp)

set_option maxRecDepth 8192 in
/-- C10 witness: a messy but parseable input yields a finite rational. -/
theorem c10_parse_price_total_witness :
    ∃ q : ℚ, JSNum.finite (mkRat 123456 100) = JSNum.finite q :=
  c10_parse_price_total (some "$1,234.56 USD".data) (JSNum.finite (mkRat 123456 100))
    (by decide)

end CryptoTracker
